import Mathlib

set_option maxHeartbeats 1000000
set_option maxRecDepth 8000

/- Verification development for the R notebook kernel bridge and the
   R Markdown chunk tooling of the vscode-R extension.

   The definitions below are shallow embeddings of the TypeScript source:
   the notebook kernel section of `src/extension/rTerminal.ts` (RKernel,
   RNotebook, RNotebookProvider) and the chunk scanner and run commands of
   `src/extension/rmarkdown.ts`.  Asynchronous control flow (promises,
   socket listeners, the Node event loop) is embedded as explicit state
   passing: a promise is represented by the bookkeeping needed to say what
   it resolves with, and event-handler registration/firing is represented
   by functions from the kernel state to the new state plus the list of
   resolutions / written frames that the handler produces. -/

/- ---------------------------------------------------------------------
   Wire protocol values (rTerminal.ts, interfaces RKernelRequest and
   RKernelResponse).
   --------------------------------------------------------------------- -/

inductive RespType
  | text | plot | viewer | browser | error
deriving DecidableEq, Repr

structure RKernelResponse where
  id : Nat
  type : RespType
  result : String
deriving DecidableEq, Repr

inductive ReqType
  | eval | cancel
deriving DecidableEq, Repr

structure RKernelRequest where
  id : Nat
  type : ReqType
  expr : Option String
deriving DecidableEq, Repr

/- ---------------------------------------------------------------------
   RKernel asynchronous state (rTerminal.ts lines 285-391).

   `socket` models whether `this.socket` is set; `pendingEvals` is the
   list of data-listeners currently registered by `eval` (one per pending
   eval promise, in registration order, recorded by the request id the
   eval sent); `startSettled` models whether the promise returned by
   `start()` has already been resolved or rejected (further `resolve` /
   `reject` calls on a settled promise are no-ops).
   --------------------------------------------------------------------- -/

structure RKState where
  socket : Bool
  pendingEvals : List Nat
  startSettled : Bool
deriving DecidableEq, Repr

/-- Outcome of a call to `RKernel.eval`: the code either falls through the
`if (this.socket)` guard and (being `async`) returns a promise already
resolved with `undefined`, or registers a data listener and returns a
pending promise.  `rejected` is never produced by the code; it is the
outcome the specification's `NotReady` contract would require. -/
inductive EvalOutcome
  | resolvedUndefined
  | pending (reqId : Nat)
  | rejected (err : String)
deriving DecidableEq, Repr

/-- RKernel.request (rTerminal.ts lines 299-304): writes the frame only
when `this.socket` is set.  Returns the list of requests written. -/
def RKernel.request (st : RKState) (req : RKernelRequest) : List RKernelRequest :=
  if st.socket then [req] else []

/-- RKernel.eval (rTerminal.ts lines 363-381): when the socket exists it
registers a fresh `data` handler (appended to the listener list) and sends
an Eval request whose id is the cell's executionOrder; otherwise the async
function returns with no request sent, resolving with `undefined`. -/
def RKernel.eval (st : RKState) (executionOrder : Nat) (expr : String) :
    RKState × EvalOutcome × List RKernelRequest :=
  if st.socket then
    ({ st with pendingEvals := st.pendingEvals ++ [executionOrder] },
     EvalOutcome.pending executionOrder,
     RKernel.request st { id := executionOrder, type := ReqType.eval, expr := some expr })
  else (st, EvalOutcome.resolvedUndefined, [])

/-- Firing of a socket `data` event (rTerminal.ts lines 366-372): every
handler registered at that moment is invoked with the same buffer; each
parses it, resolves its own promise with the parsed response and removes
itself.  Returns the new state and the list of (request id, response)
resolutions, in registration order. -/
def RKernel.onSocketData (st : RKState) (resp : RKernelResponse) :
    RKState × List (Nat × RKernelResponse) :=
  ({ st with pendingEvals := [] }, st.pendingEvals.map (fun reqId => (reqId, resp)))

/-- The `exit` handler installed in RKernel.start (rTerminal.ts lines
340-343): it calls `reject(undefined)` on the promise returned by
`start()` — a no-op when that promise is already settled — and touches
nothing else.  In particular it resolves or rejects none of the pending
eval promises. -/
def RKernel.onProcessExit (st : RKState) (_code : Int) :
    RKState × List (Nat × RKernelResponse) :=
  ({ st with startSettled := true }, [])

/-- Asynchronous notifications delivered to a running kernel. -/
inductive KEvent
  | dataArrived (resp : RKernelResponse)
  | exited (code : Int)

def stepKEvent (st : RKState) : KEvent → RKState × List (Nat × RKernelResponse)
  | KEvent.dataArrived resp => RKernel.onSocketData st resp
  | KEvent.exited code => RKernel.onProcessExit st code

/-- Processes a sequence of asynchronous events, accumulating the eval
resolutions they produce. -/
def runKEvents (st : RKState) : List KEvent → RKState × List (Nat × RKernelResponse)
  | [] => (st, [])
  | ev :: rest =>
    let p := stepKEvent st ev
    let q := runKEvents p.1 rest
    (q.1, p.2 ++ q.2)

/-- A connected kernel on which eval requests 3 and then 4 have been
issued and are both pending. -/
def twoEvalState : RKState :=
  (RKernel.eval (RKernel.eval { socket := true, pendingEvals := [], startSettled := true }
      3 "x").1 4 "y").1

/-- Claim C1 is false on the code: with eval requests 3 and 4 both
pending, a single data event carrying the response with id 4 resolves the
promise of request 3 (and that of request 4) with that response, because
every registered data handler resolves with the first buffer to arrive —
no correlation by request id is performed. -/
theorem c1_counterexample :
    (RKernel.onSocketData twoEvalState { id := 4, type := RespType.text, result := "r4" }).2
      = [(3, { id := 4, type := RespType.text, result := "r4" }),
         (4, { id := 4, type := RespType.text, result := "r4" })]
    ∧ (4 : Nat) ≠ 3 := by
  decide

/-- Claim C1 amended: each pending eval promise resolves with the first
response buffer to arrive after its handler is registered, regardless of
the id that response carries.  With requests 3 and 4 pending, whichever of
the two responses arrives first resolves both promises, so out-of-order
arrival resolves request 3's caller with request 4's response. -/
theorem c1_amended (r r' : RKernelResponse) :
    (runKEvents twoEvalState [KEvent.dataArrived r, KEvent.dataArrived r']).2
      = [(3, r), (4, r)] := by
  rfl

/-- Claim C2 names a code bug: with the kernel connected (start promise
already resolved) and eval request 1 pending, the subprocess-exit
notification rejects nothing — `reject(undefined)` targets the settled
`start()` promise only — so the pending eval promise survives the exit
unresolved, and no other handler ever rejects it. -/
theorem c2_code_bug :
    (RKernel.onProcessExit { socket := true, pendingEvals := [1], startSettled := true } 0).2 = []
    ∧ (RKernel.onProcessExit { socket := true, pendingEvals := [1], startSettled := true }
        0).1.pendingEvals = [1] := by
  decide

/- ---------------------------------------------------------------------
   RKernel.start race (rTerminal.ts lines 306-348).

   `start()` returns immediately when `this.process` is set, but
   `this.process` is only assigned inside the asynchronous
   `server.listen` callback.  The synchronous body of a `start()` call
   (guard check, server creation, scheduling of the listen callback) and
   the later listen callback (port assignment, `spawn`, assignment of
   `this.process`) are therefore separate steps that interleave.
   --------------------------------------------------------------------- -/

structure StartRace where
  processSet : Bool
  listenPending1 : Bool
  listenPending2 : Bool
  spawnCount : Nat
deriving DecidableEq, Repr

inductive StartStep
  | syncEntry (call : Nat)
  | listenCallback (call : Nat)
deriving DecidableEq, Repr

/-- One scheduler step of the two racing `start()` calls.  `syncEntry k`
is call k's synchronous body: if `this.process` is set it returns at once,
otherwise it creates a server and schedules its listen callback.
`listenCallback k` runs call k's scheduled callback, which spawns the
child unconditionally and assigns `this.process`. -/
def stepStart (st : StartRace) : StartStep → StartRace
  | StartStep.syncEntry 1 => if st.processSet then st else { st with listenPending1 := true }
  | StartStep.syncEntry _ => if st.processSet then st else { st with listenPending2 := true }
  | StartStep.listenCallback 1 =>
    if st.listenPending1 then
      { st with listenPending1 := false, spawnCount := st.spawnCount + 1, processSet := true }
    else st
  | StartStep.listenCallback _ =>
    if st.listenPending2 then
      { st with listenPending2 := false, spawnCount := st.spawnCount + 1, processSet := true }
    else st

def runStartSchedule (steps : List StartStep) : StartRace :=
  steps.foldl stepStart
    { processSet := false, listenPending1 := false, listenPending2 := false, spawnCount := 0 }

/-- Claim C3 names a code bug: two `start()` calls issued in the same
macrotask both pass the `if (this.process)` guard before either listen
callback has assigned `this.process`, so two subprocesses are spawned;
the guard only coalesces a second call that arrives after the first
call's listen callback has run. -/
theorem c3_code_bug :
    (runStartSchedule [StartStep.syncEntry 1, StartStep.syncEntry 2,
        StartStep.listenCallback 1, StartStep.listenCallback 2]).spawnCount = 2
    ∧ (runStartSchedule [StartStep.syncEntry 1, StartStep.listenCallback 1,
        StartStep.syncEntry 2, StartStep.listenCallback 2]).spawnCount = 1 := by
  decide

/-- Claim C6 is false on the code: calling eval with no socket established
sends no request, but instead of failing with a `NotReady` error the async
function falls through the `if (this.socket)` guard and returns a promise
already resolved with `undefined`. -/
theorem c6_counterexample :
    RKernel.eval { socket := false, pendingEvals := [], startSettled := false } 1 "1+1"
      = ({ socket := false, pendingEvals := [], startSettled := false },
         EvalOutcome.resolvedUndefined, [])
    ∧ EvalOutcome.resolvedUndefined ≠ EvalOutcome.rejected "NotReady" := by
  decide

/-- Claim C6 amended: whenever eval is called while no socket connection
exists, no request is sent and the call resolves with `undefined`; no
`NotReady` error is raised and the kernel state is unchanged. -/
theorem c6_amended (st : RKState) (ord : Nat) (expr : String) (h : st.socket = false) :
    RKernel.eval st ord expr = (st, EvalOutcome.resolvedUndefined, []) := by
  simp [RKernel.eval, h]

theorem c6_witness :
    ({ socket := false, pendingEvals := [], startSettled := false } : RKState).socket = false
    ∧ RKernel.eval { socket := false, pendingEvals := [], startSettled := false } 2 "x"
        = ({ socket := false, pendingEvals := [], startSettled := false },
           EvalOutcome.resolvedUndefined, []) :=
  ⟨rfl, c6_amended { socket := false, pendingEvals := [], startSettled := false } 2 "x" rfl⟩

/- ---------------------------------------------------------------------
   Frame writing (rTerminal.ts lines 299-304):
   `this.socket.write('Content-Length: ' + json.length + '\n' + json)`
   where `json = JSON.stringify(request)`.  A JavaScript string's
   `.length` is its number of UTF-16 code units, while `socket.write`
   encodes the string as UTF-8 bytes.
   --------------------------------------------------------------------- -/

/-- Number of UTF-16 code units of a string: JavaScript's `.length`. -/
def jsLength (s : String) : Nat :=
  (s.data.map (fun c => if c.toNat < 65536 then 1 else 2)).sum

/-- Number of bytes of the UTF-8 encoding of one character. -/
def utf8Size (c : Char) : Nat :=
  if c.toNat < 128 then 1
  else if c.toNat < 2048 then 2
  else if c.toNat < 65536 then 3
  else 4

/-- Number of bytes of the UTF-8 encoding of a string: what the socket
actually transmits for it. -/
def utf8ByteLength (s : String) : Nat :=
  (s.data.map utf8Size).sum

def hexDigit (n : Nat) : Char :=
  if n < 10 then Char.ofNat (48 + n) else Char.ofNat (87 + n)

/-- Escaping performed by JSON.stringify inside string literals: quote,
backslash and control characters are escaped, everything else — including
all non-ASCII characters — is copied through verbatim. -/
def jsonEscapeChar (c : Char) : List Char :=
  if c = '"' then ['\\', '"']
  else if c = '\\' then ['\\', '\\']
  else if c = '\x08' then ['\\', 'b']
  else if c = '\x09' then ['\\', 't']
  else if c = '\x0a' then ['\\', 'n']
  else if c = '\x0c' then ['\\', 'f']
  else if c = '\x0d' then ['\\', 'r']
  else if c.toNat < 32 then
    ['\\', 'u', '0', '0', hexDigit (c.toNat / 16), hexDigit (c.toNat % 16)]
  else [c]

def jsonEscapeString (s : String) : String :=
  String.mk ('"' :: (s.data.flatMap jsonEscapeChar) ++ ['"'])

def ReqType.toStr : ReqType → String
  | ReqType.eval => "eval"
  | ReqType.cancel => "cancel"

/-- JSON.stringify of an RKernelRequest: keys in insertion order
(id, type, expr), with `expr` omitted when undefined. -/
def jsonStringifyRequest (req : RKernelRequest) : String :=
  "\x7b\"id\":" ++ toString req.id ++ ",\"type\":\"" ++ req.type.toStr ++ "\""
    ++ (match req.expr with
        | some e => ",\"expr\":" ++ jsonEscapeString e
        | none => "")
    ++ "\x7d"

/-- The frame string RKernel.request writes to the socket for a request:
a `Content-Length:` header computed from the JavaScript string length of
the JSON payload, a newline, and the payload. -/
def requestFrame (req : RKernelRequest) : String :=
  "Content-Length: " ++ toString (jsLength (jsonStringifyRequest req)) ++ "\n"
    ++ jsonStringifyRequest req

theorem asciiLength (l : List Char) (h : ∀ c ∈ l, c.toNat < 128) :
    (l.map (fun c => if c.toNat < 65536 then 1 else 2)).sum = (l.map utf8Size).sum := by
  induction l with
  | nil => rfl
  | cons c rest ih =>
    have hc : c.toNat < 128 := h c (List.mem_cons_self c rest)
    have hrest : ∀ x ∈ rest, x.toNat < 128 := fun x hx => h x (List.mem_cons_of_mem c hx)
    simp only [List.map_cons, List.sum_cons, ih hrest, utf8Size]
    have h1 : c.toNat < 65536 := by omega
    rw [if_pos h1, if_pos hc]

/-- Claim C7 is false on the code: for the eval request with id 1 and
expression "é", the header length `json.length` (UTF-16 code units) is
not the byte length of the UTF-8 payload the socket transmits. -/
theorem c7_counterexample :
    jsLength (jsonStringifyRequest { id := 1, type := ReqType.eval, expr := some "é" })
      ≠ utf8ByteLength (jsonStringifyRequest { id := 1, type := ReqType.eval, expr := some "é" }) := by
  decide

/-- Claim C7 amended: the header count equals the payload's byte length
exactly when the JSON payload is pure ASCII; for such requests the frame
written is `Content-Length: <byte length>\n<payload>`. -/
theorem c7_amended (req : RKernelRequest)
    (h : ∀ c ∈ (jsonStringifyRequest req).data, c.toNat < 128) :
    requestFrame req
      = "Content-Length: " ++ toString (utf8ByteLength (jsonStringifyRequest req)) ++ "\n"
        ++ jsonStringifyRequest req := by
  have he : jsLength (jsonStringifyRequest req) = utf8ByteLength (jsonStringifyRequest req) :=
    asciiLength (jsonStringifyRequest req).data h
  rw [requestFrame, he]

theorem c7_witness :
    (∀ c ∈ (jsonStringifyRequest { id := 1, type := ReqType.eval, expr := some "1+1" }).data,
        c.toNat < 128)
    ∧ requestFrame { id := 1, type := ReqType.eval, expr := some "1+1" }
        = "Content-Length: "
            ++ toString (utf8ByteLength
                  (jsonStringifyRequest { id := 1, type := ReqType.eval, expr := some "1+1" }))
            ++ "\n" ++ jsonStringifyRequest { id := 1, type := ReqType.eval, expr := some "1+1" } :=
  ⟨by decide, c7_amended { id := 1, type := ReqType.eval, expr := some "1+1" } (by decide)⟩

/- ---------------------------------------------------------------------
   Cell run states and cancellation (rTerminal.ts lines 383-390 and
   684-694).
   --------------------------------------------------------------------- -/

inductive NotebookCellRunState
  | idle | running | success | error
deriving DecidableEq, Repr

/-- The notebook entry held in the `notebooks` registry, as far as
cancellation is concerned: whether its kernel's socket is set. -/
structure CancelNotebook where
  socket : Bool
deriving DecidableEq, Repr

/-- RKernel.cancel (rTerminal.ts lines 383-390): when the socket exists,
writes a Cancel request whose id is the target cell's executionOrder, or
0 when no cell is given.  Returns the requests written. -/
def RKernel.cancel (k : CancelNotebook) (cellOrder : Option Nat) : List RKernelRequest :=
  if k.socket then
    [{ id := cellOrder.getD 0, type := ReqType.cancel, expr := none }]
  else []

/-- RNotebookProvider.cancelCellExecution (rTerminal.ts lines 684-689):
forwards to the kernel only when the cell's run state is Running.  The
result is the list of requests written and whether a TypeError escapes
(dereferencing an absent notebook). -/
def cancelCellExecution (notebook : Option CancelNotebook)
    (runState : NotebookCellRunState) (executionOrder : Nat) :
    List RKernelRequest × Bool :=
  if runState = NotebookCellRunState.running then
    match notebook with
    | some k => (RKernel.cancel k (some executionOrder), false)
    | none => ([], true)
  else ([], false)

/-- RNotebookProvider.cancelAllCellsExecution (rTerminal.ts lines
691-694): looks up the notebook and calls `notebook.cancel(undefined)`
unconditionally — the run states of the document's cells (`_cells`) are
never consulted. -/
def cancelAllCellsExecution (notebook : Option CancelNotebook)
    (_cells : List NotebookCellRunState) : List RKernelRequest × Bool :=
  match notebook with
  | some k => (RKernel.cancel k none, false)
  | none => ([], true)

/-- Claim C8 is false on the code: on a document whose only cell is idle
(nothing Running), cancel-all still writes a Cancel request with id 0 to
the transport instead of being a no-op. -/
theorem c8_counterexample :
    cancelAllCellsExecution (some { socket := true }) [NotebookCellRunState.idle]
      = ([{ id := 0, type := ReqType.cancel, expr := none }], false)
    ∧ ([{ id := 0, type := ReqType.cancel, expr := none }] : List RKernelRequest) ≠ [] := by
  decide

/-- Claim C8 amended: cancelling one cell forwards to the kernel only when
that cell is Running and otherwise performs no transport call and does not
throw; cancelling all cells, however, always forwards `cancel` with id 0
to the kernel of the document regardless of any cell's run state (writing
the frame whenever the socket exists), and throws a TypeError when no
notebook is registered for the document. -/
theorem c8_amended (notebook : Option CancelNotebook) (rs : NotebookCellRunState)
    (ord : Nat) (cells : List NotebookCellRunState) (k : CancelNotebook)
    (h : rs ≠ NotebookCellRunState.running) :
    cancelCellExecution notebook rs ord = ([], false)
    ∧ cancelAllCellsExecution (some k) cells = (RKernel.cancel k none, false)
    ∧ (k.socket = true →
        cancelAllCellsExecution (some k) cells
          = ([{ id := 0, type := ReqType.cancel, expr := none }], false))
    ∧ cancelAllCellsExecution none cells = ([], true) := by
  refine ⟨?_, rfl, ?_, rfl⟩
  · simp [cancelCellExecution, h]
  · intro hs
    simp [cancelAllCellsExecution, RKernel.cancel, hs]

theorem c8_witness :
    (NotebookCellRunState.idle ≠ NotebookCellRunState.running)
    ∧ (cancelCellExecution (some { socket := true }) NotebookCellRunState.idle 5 = ([], false)
       ∧ cancelAllCellsExecution (some { socket := true }) [] = (RKernel.cancel { socket := true } none, false)
       ∧ (({ socket := true } : CancelNotebook).socket = true →
           cancelAllCellsExecution (some { socket := true }) []
             = ([{ id := 0, type := ReqType.cancel, expr := none }], false))
       ∧ cancelAllCellsExecution none [] = ([], true)) :=
  ⟨by decide,
   c8_amended (some { socket := true }) NotebookCellRunState.idle 5 [] { socket := true }
     (by decide)⟩

/- ---------------------------------------------------------------------
   Cell execution (rTerminal.ts lines 591-682).

   `executeCell(document, cell)` with a cell runs the single-cell path:
   guarded by the notebook existing and the cell not already Running, it
   stamps executionOrder (`++this.runIndex`), awaits `notebook.eval` and
   projects the response into the cell's run state.  With `cell`
   undefined it runs the run-all branch: fire `notebook.restartKernel()`
   (when a notebook exists) and then sequentially await the single-cell
   path for every runnable Code cell.  `executeAllCells(document)`
   instead awaits the single-cell path for every cell of the document,
   with no restart and no kind/runnable filter.

   The trace of kernel interactions is recorded as a list of events; the
   sequential `await` of each eval is embedded as the response event
   following its request event immediately.
   --------------------------------------------------------------------- -/

structure ExecCell where
  isCode : Bool
  runnable : Bool
  runState : NotebookCellRunState
deriving DecidableEq, Repr

inductive ExecEv
  | restartKernel
  | evalReq (cellIdx runIndex : Nat)
  | evalResp (cellIdx : Nat)
deriving DecidableEq, Repr

/-- The single-cell path of RNotebookProvider.executeCell (rTerminal.ts
lines 608-675), for the cell at document index `idx`.  `resp` gives the
response the kernel returns for a given executionOrder.  Returns the
events produced, the updated cell and the updated runIndex counter. -/
def executeCellModel (hasNotebook : Bool) (resp : Nat → RKernelResponse)
    (idx : Nat) (c : ExecCell) (runIndex : Nat) :
    List ExecEv × ExecCell × Nat :=
  if hasNotebook = true ∧ c.runState ≠ NotebookCellRunState.running then
    let ord := runIndex + 1
    ([ExecEv.evalReq idx ord, ExecEv.evalResp idx],
     { c with runState :=
        if (resp ord).type = RespType.error then NotebookCellRunState.error
        else NotebookCellRunState.success },
     ord)
  else ([], c, runIndex)

/-- The loop of the run-all branch (rTerminal.ts lines 599-603): for each
cell of the document in order, if it is a runnable Code cell, await the
single-cell path. -/
def execLoop (hasNotebook : Bool) (resp : Nat → RKernelResponse) :
    List (Nat × ExecCell) → Nat → List ExecEv
  | [], _ => []
  | (i, c) :: rest, runIndex =>
    if c.isCode = true ∧ c.runnable = true then
      let r := executeCellModel hasNotebook resp i c runIndex
      r.1 ++ execLoop hasNotebook resp rest r.2.2
    else execLoop hasNotebook resp rest runIndex

/-- The run-all branch of executeCell (rTerminal.ts lines 594-606),
entered when `cell` is undefined: fire restartKernel when a notebook is
registered, then run the runnable-Code-cell loop. -/
def executeAllViaCell (hasNotebook : Bool) (resp : Nat → RKernelResponse)
    (cells : List ExecCell) : List ExecEv :=
  (if hasNotebook then [ExecEv.restartKernel] else [])
    ++ execLoop hasNotebook resp cells.enum 0

/-- The loop of executeAllCells (rTerminal.ts lines 678-682): awaits the
single-cell path for every cell, with no kind or runnable filter. -/
def execLoopAll (hasNotebook : Bool) (resp : Nat → RKernelResponse) :
    List (Nat × ExecCell) → Nat → List ExecEv
  | [], _ => []
  | (i, c) :: rest, runIndex =>
    let r := executeCellModel hasNotebook resp i c runIndex
    r.1 ++ execLoopAll hasNotebook resp rest r.2.2

/-- RNotebookProvider.executeAllCells (rTerminal.ts lines 678-682). -/
def executeAllCells (hasNotebook : Bool) (resp : Nat → RKernelResponse)
    (cells : List ExecCell) : List ExecEv :=
  execLoopAll hasNotebook resp cells.enum 0

/-- Expected trace of a strictly sequential execution of the listed
(document index, executionOrder) pairs: each request is immediately
followed by its response. -/
def specSeqTrace : List (Nat × Nat) → List ExecEv
  | [] => []
  | (i, ord) :: rest => ExecEv.evalReq i ord :: ExecEv.evalResp i :: specSeqTrace rest

/-- Assignment of executionOrders `k+1, k+2, ...` to the listed document
indices, in order. -/
def orderPairs : List Nat → Nat → List (Nat × Nat)
  | [], _ => []
  | i :: rest, k => (i, k + 1) :: orderPairs rest (k + 1)

/-- Document indices of the runnable Code cells, in document order. -/
def runnableIdxs (cells : List ExecCell) : List Nat :=
  (cells.enum.filter (fun ic => ic.2.isCode = true ∧ ic.2.runnable = true)).map
    (fun ic => ic.1)

/-- Sequentiality of a trace: it consists of an optional leading restart
and eval request/response pairs in which each response immediately
follows its own request — no second request is issued while one is
outstanding. -/
inductive SeqOk : List ExecEv → Prop
  | nil : SeqOk []
  | restart {l : List ExecEv} : SeqOk l → SeqOk (ExecEv.restartKernel :: l)
  | pair {i o : Nat} {l : List ExecEv} :
      SeqOk l → SeqOk (ExecEv.evalReq i o :: ExecEv.evalResp i :: l)

theorem specSeqTrace_seqOk (ps : List (Nat × Nat)) : SeqOk (specSeqTrace ps) := by
  induction ps with
  | nil => exact SeqOk.nil
  | cons p rest ih => exact SeqOk.pair ih

theorem execLoop_spec (resp : Nat → RKernelResponse) (ps : List (Nat × ExecCell))
    (h : ∀ p ∈ ps, p.2.runState ≠ NotebookCellRunState.running) (ri : Nat) :
    execLoop true resp ps ri
      = specSeqTrace (orderPairs
          ((ps.filter (fun ic => ic.2.isCode = true ∧ ic.2.runnable = true)).map
            (fun ic => ic.1)) ri) := by
  induction ps generalizing ri with
  | nil => rfl
  | cons p rest ih =>
    obtain ⟨i, c⟩ := p
    have hc : c.runState ≠ NotebookCellRunState.running :=
      h (i, c) (List.mem_cons_self _ _)
    have hrest : ∀ p ∈ rest, p.2.runState ≠ NotebookCellRunState.running :=
      fun p hp => h p (List.mem_cons_of_mem _ hp)
    by_cases hk : c.isCode = true ∧ c.runnable = true
    · simp only [execLoop, if_pos hk, executeCellModel]
      rw [if_pos ⟨trivial, hc⟩, ih hrest]
      simp [List.filter_cons, hk.1, hk.2, orderPairs, specSeqTrace]
    · simp only [execLoop, if_neg hk]
      rw [ih hrest ri]
      congr 1
      simp only [List.filter_cons]
      rw [if_neg (by simpa using hk)]

theorem execLoopAll_spec (resp : Nat → RKernelResponse) (ps : List (Nat × ExecCell))
    (h : ∀ p ∈ ps, p.2.runState ≠ NotebookCellRunState.running) (ri : Nat) :
    execLoopAll true resp ps ri
      = specSeqTrace (orderPairs (ps.map (fun ic => ic.1)) ri) := by
  induction ps generalizing ri with
  | nil => rfl
  | cons p rest ih =>
    obtain ⟨i, c⟩ := p
    have hc : c.runState ≠ NotebookCellRunState.running :=
      h (i, c) (List.mem_cons_self _ _)
    have hrest : ∀ p ∈ rest, p.2.runState ≠ NotebookCellRunState.running :=
      fun p hp => h p (List.mem_cons_of_mem _ hp)
    simp only [execLoopAll, executeCellModel]
    rw [if_pos ⟨trivial, hc⟩, ih hrest]
    simp [orderPairs, specSeqTrace]

/-- Claim C5 is false on the code for the `executeAllCells` entry point:
on a document whose only cell is a non-runnable Markdown cell and whose
notebook is registered, run-all issues an eval request for that cell and
performs no kernel restart — instead of restarting and executing exactly
the runnable Code cells (here: none). -/
theorem c5_counterexample :
    executeAllCells true (fun _ => { id := 1, type := RespType.text, result := "ok" })
        [{ isCode := false, runnable := false, runState := NotebookCellRunState.idle }]
      = [ExecEv.evalReq 0 1, ExecEv.evalResp 0]
    ∧ ExecEv.restartKernel
        ∉ executeAllCells true (fun _ => { id := 1, type := RespType.text, result := "ok" })
            [{ isCode := false, runnable := false, runState := NotebookCellRunState.idle }] := by
  decide

/-- Claim C5 amended: run-all through the undefined-cell branch of
executeCell first fires the kernel restart of the document (when a
notebook is registered) and then executes exactly the runnable Code
cells in document order, stamping executionOrders 1, 2, ... and awaiting
each cell's response before issuing the next request, so no two
evaluations overlap; run-all through executeAllCells instead performs no
restart and sequentially executes every cell of the document that is not
already Running — markdown and yaml cells included — likewise awaiting
each response before the next request. -/
theorem c5_amended (resp : Nat → RKernelResponse) (cells : List ExecCell)
    (h : ∀ c ∈ cells, c.runState ≠ NotebookCellRunState.running) :
    executeAllViaCell true resp cells
        = ExecEv.restartKernel :: specSeqTrace (orderPairs (runnableIdxs cells) 0)
    ∧ SeqOk (executeAllViaCell true resp cells)
    ∧ executeAllCells true resp cells
        = specSeqTrace (orderPairs (cells.enum.map (fun ic => ic.1)) 0)
    ∧ SeqOk (executeAllCells true resp cells) := by
  have henum : ∀ p ∈ cells.enum, p.2.runState ≠ NotebookCellRunState.running := by
    intro p hp
    exact h p.2 (List.snd_mem_of_mem_enum hp)
  have h1 : executeAllViaCell true resp cells
      = ExecEv.restartKernel :: specSeqTrace (orderPairs (runnableIdxs cells) 0) := by
    simp only [executeAllViaCell, if_pos rfl]
    rw [execLoop_spec resp cells.enum henum 0]
    rfl
  have h3 : executeAllCells true resp cells
      = specSeqTrace (orderPairs (cells.enum.map (fun ic => ic.1)) 0) := by
    simp only [executeAllCells]
    exact execLoopAll_spec resp cells.enum henum 0
  refine ⟨h1, ?_, h3, ?_⟩
  · rw [h1]; exact SeqOk.restart (specSeqTrace_seqOk _)
  · rw [h3]; exact specSeqTrace_seqOk _

theorem c5_witness :
    (∀ c ∈ [({ isCode := true, runnable := true, runState := NotebookCellRunState.idle } : ExecCell),
            { isCode := false, runnable := false, runState := NotebookCellRunState.idle }],
        c.runState ≠ NotebookCellRunState.running)
    ∧ (executeAllViaCell true (fun _ => { id := 1, type := RespType.text, result := "[1] 2" })
          [{ isCode := true, runnable := true, runState := NotebookCellRunState.idle },
           { isCode := false, runnable := false, runState := NotebookCellRunState.idle }]
        = ExecEv.restartKernel :: specSeqTrace (orderPairs (runnableIdxs
            [{ isCode := true, runnable := true, runState := NotebookCellRunState.idle },
             { isCode := false, runnable := false, runState := NotebookCellRunState.idle }]) 0)
       ∧ SeqOk (executeAllViaCell true (fun _ => { id := 1, type := RespType.text, result := "[1] 2" })
          [{ isCode := true, runnable := true, runState := NotebookCellRunState.idle },
           { isCode := false, runnable := false, runState := NotebookCellRunState.idle }])
       ∧ executeAllCells true (fun _ => { id := 1, type := RespType.text, result := "[1] 2" })
          [{ isCode := true, runnable := true, runState := NotebookCellRunState.idle },
           { isCode := false, runnable := false, runState := NotebookCellRunState.idle }]
        = specSeqTrace (orderPairs (List.map (fun ic => ic.1) (List.enum
            [({ isCode := true, runnable := true, runState := NotebookCellRunState.idle } : ExecCell),
             { isCode := false, runnable := false, runState := NotebookCellRunState.idle }])) 0)
       ∧ SeqOk (executeAllCells true (fun _ => { id := 1, type := RespType.text, result := "[1] 2" })
          [{ isCode := true, runnable := true, runState := NotebookCellRunState.idle },
           { isCode := false, runnable := false, runState := NotebookCellRunState.idle }])) :=
  ⟨by decide,
   c5_amended (fun _ => { id := 1, type := RespType.text, result := "[1] 2" })
     [{ isCode := true, runnable := true, runState := NotebookCellRunState.idle },
      { isCode := false, runnable := false, runState := NotebookCellRunState.idle }]
     (by decide)⟩

/- ---------------------------------------------------------------------
   Line splitting: `text.split(/\r?\n/)`, used by both
   RNotebookProvider.openNotebook and rmarkdown's getChunks.  The
   separator is either "\r\n" or "\n"; a carriage return not directly
   followed by a newline is ordinary text.
   --------------------------------------------------------------------- -/

def consHead (c : Char) : List (List Char) → List (List Char)
  | [] => [[c]]
  | h :: t => (c :: h) :: t

def splitRNList : List Char → List (List Char)
  | [] => [[]]
  | '\n' :: cs => [] :: splitRNList cs
  | '\r' :: '\n' :: cs => [] :: splitRNList cs
  | '\r' :: cs => consHead '\r' (splitRNList cs)
  | c :: cs => consHead c (splitRNList cs)

/-- JavaScript's `text.split(/\r?\n/)`. -/
def splitRNStr (s : String) : List String :=
  (splitRNList s.data).map String.mk

/- ---------------------------------------------------------------------
   rmarkdown.ts: chunk header/footer recognition (lines 9-36).  The
   regular expressions are embedded as explicit scanners over the line's
   characters.  `isJsSpace` models the common members of the regex class
   `\s`; `isWordChar` models `\w`.
   --------------------------------------------------------------------- -/

def backtickChar : Char := Char.ofNat 96

def lbraceChar : Char := Char.ofNat 123

def rbraceChar : Char := Char.ofNat 125

def isJsSpace (c : Char) : Bool :=
  c = ' ' || c = '\t' || c = '\n' || c = '\r' || c = Char.ofNat 11 || c = Char.ofNat 12

def isWordChar (c : Char) : Bool :=
  ('a' ≤ c && c ≤ 'z') || ('A' ≤ c && c ≤ 'Z') || ('0' ≤ c && c ≤ '9') || c = '_'

/-- rmarkdown.ts isChunkStartLine: the line matches
`^\s*(three or more backticks)\s*\x7b\w+\s*.*$` — leading spaces, at least
three backticks, spaces, an opening brace and at least one word
character; anything may follow. -/
def isChunkStartLine (s : String) : Bool :=
  let t := s.data.dropWhile isJsSpace
  let ticks := t.takeWhile (fun c => c = backtickChar)
  let rest := (t.dropWhile (fun c => c = backtickChar)).dropWhile isJsSpace
  decide (3 ≤ ticks.length) &&
    (match rest with
     | c1 :: c2 :: _ => c1 = lbraceChar && isWordChar c2
     | _ => false)

/-- rmarkdown.ts isChunkEndLine: the line matches `^\s*(three or more
backticks)\s*$`. -/
def isChunkEndLine (s : String) : Bool :=
  let t := s.data.dropWhile isJsSpace
  let ticks := t.takeWhile (fun c => c = backtickChar)
  let rest := t.dropWhile (fun c => c = backtickChar)
  decide (3 ≤ ticks.length) && rest.all isJsSpace

/-- Helper for the two `replace` regexes: both require the line, after
trailing spaces are dropped, to end with a closing brace; the capture
stops before that closing brace.  Returns the characters before the last
closing brace whose suffix is all spaces, or none when the line does not
end that way. -/
def lastBraceSplit (u : List Char) : Option (List Char) :=
  match u.reverse.dropWhile isJsSpace with
  | c :: rest => if c = rbraceChar then some rest.reverse else none
  | [] => none

/-- Capture of rmarkdown.ts getChunkLanguage's regex
`^\s*(backticks)+\s*\x7b(\w+)\s*.*\x7d\s*$`: the word run after the brace,
provided the whole line matches. -/
def langCapture (cs : List Char) : Option (List Char) :=
  let t := cs.dropWhile isJsSpace
  let ticks := t.takeWhile (fun c => c = backtickChar)
  let rest := (t.dropWhile (fun c => c = backtickChar)).dropWhile isJsSpace
  if 3 ≤ ticks.length then
    match rest with
    | c1 :: r1 =>
      if c1 = lbraceChar then
        let w := r1.takeWhile isWordChar
        if w.isEmpty then none
        else match lastBraceSplit (r1.dropWhile isWordChar) with
          | some _ => some w
          | none => none
      else none
    | [] => none
  else none

/-- rmarkdown.ts getChunkLanguage: `replace` yields the captured language
when the line matches and the whole (unchanged) line otherwise, then
`toLowerCase()` is applied (modeled for ASCII letters). -/
def getChunkLanguage (s : String) : String :=
  match langCapture s.data with
  | some w => String.mk (w.map Char.toLower)
  | none => String.mk (s.data.map Char.toLower)

/-- Capture of rmarkdown.ts getChunkOptions's regex
`^\s*(backticks)+\s*\x7b\w+\s*,?\s*(.*)\s*\x7d\s*$`: everything between
the optional comma after the language word and the final closing brace,
provided the whole line matches. -/
def optionsCapture (cs : List Char) : Option (List Char) :=
  let t := cs.dropWhile isJsSpace
  let ticks := t.takeWhile (fun c => c = backtickChar)
  let rest := (t.dropWhile (fun c => c = backtickChar)).dropWhile isJsSpace
  if 3 ≤ ticks.length then
    match rest with
    | c1 :: r1 =>
      if c1 = lbraceChar then
        let w := r1.takeWhile isWordChar
        if w.isEmpty then none
        else
          let r2 := (r1.dropWhile isWordChar).dropWhile isJsSpace
          let r3 := match r2 with
            | c2 :: tl => if c2 = ',' then tl.dropWhile isJsSpace else r2
            | [] => r2
          lastBraceSplit r3
      else none
    | [] => none
  else none

/-- rmarkdown.ts getChunkOptions: the captured option text when the line
matches, the whole line otherwise. -/
def getChunkOptions (s : String) : String :=
  match optionsCapture s.data with
  | some cap => String.mk cap
  | none => s

/-- Does the character list start with `eval`, optional spaces, `=`,
optional spaces and a literal `F` — the prefix the getChunkEval regex
searches for (the alternation `(F|FALSE)` already succeeds on `F`). -/
def evalFAt (l : List Char) : Bool :=
  match l with
  | 'e' :: 'v' :: 'a' :: 'l' :: rest =>
    (match rest.dropWhile isJsSpace with
     | '=' :: r2 =>
       (match r2.dropWhile isJsSpace with
        | 'F' :: _ => true
        | _ => false)
     | _ => false)
  | _ => false

def containsEvalF : List Char → Bool
  | [] => false
  | c :: tl => evalFAt (c :: tl) || containsEvalF tl

/-- rmarkdown.ts getChunkEval (lines 31-36): false exactly when the
options text matches `eval\s*=\s*(F|FALSE)` somewhere. -/
def getChunkEval (chunkOptions : String) : Bool :=
  if containsEvalF chunkOptions.data then false else true

/- ---------------------------------------------------------------------
   rmarkdown.ts getChunks (lines 155-219).
   --------------------------------------------------------------------- -/

structure Range4 where
  startLine : Nat
  startChar : Nat
  endLine : Nat
  endChar : Nat
deriving DecidableEq, Repr

structure RMarkdownChunk where
  id : Nat
  startLine : Nat
  endLine : Nat
  language : String
  options : String
  eval : Bool
  chunkRange : Range4
  codeRange : Range4
deriving DecidableEq, Repr

/-- The in-progress chunk while the scanner is between a chunk start line
and the matching end line (the source's chunkId/chunkStartLine/
chunkLanguage/chunkOptions/chunkEval locals while chunkStartLine is
defined). -/
structure OpenChunk where
  id : Nat
  startLine : Nat
  language : String
  options : String
  eval : Bool
deriving DecidableEq, Repr

def mkChunk (lines : List String) (o : OpenChunk) (endLine : Nat) : RMarkdownChunk :=
  { id := o.id, startLine := o.startLine, endLine := endLine,
    language := o.language, options := o.options, eval := o.eval,
    chunkRange := { startLine := o.startLine, startChar := 0,
                    endLine := endLine, endChar := (lines.getD endLine "").length },
    codeRange := { startLine := o.startLine + 1, startChar := 0,
                   endLine := endLine - 1, endChar := (lines.getD (endLine - 1) "").length } }

/-- The while loop of getChunks.  `fuel` counts the remaining iterations
(the loop advances `line` by exactly one per iteration, so getChunks
passes `lines.length`). -/
def gcGo (lines : List String) : Nat → Nat → Nat → Option OpenChunk → List RMarkdownChunk
  | 0, _, _, _ => []
  | fuel + 1, line, chunkId, none =>
    if h : line < lines.length then
      if isChunkStartLine (lines.get ⟨line, h⟩) then
        gcGo lines fuel (line + 1) (chunkId + 1)
          (some { id := chunkId + 1, startLine := line,
                  language := getChunkLanguage (lines.get ⟨line, h⟩),
                  options := getChunkOptions (lines.get ⟨line, h⟩),
                  eval := getChunkEval (getChunkOptions (lines.get ⟨line, h⟩)) })
      else gcGo lines fuel (line + 1) chunkId none
    else []
  | fuel + 1, line, chunkId, some o =>
    if h : line < lines.length then
      if isChunkEndLine (lines.get ⟨line, h⟩) then
        mkChunk lines o line :: gcGo lines fuel (line + 1) chunkId none
      else gcGo lines fuel (line + 1) chunkId (some o)
    else []

/-- rmarkdown.ts getChunks, on the already split line list. -/
def getChunks (lines : List String) : List RMarkdownChunk :=
  gcGo lines lines.length 0 0 none

/-- getChunks on the raw document text (`document.getText().split(/\r?\n/)`). -/
def getChunksOfText (text : String) : List RMarkdownChunk :=
  getChunks (splitRNStr text)

/- ---------------------------------------------------------------------
   Structure of the chunk list produced by getChunks: consecutive
   one-based ids in order of appearance and strictly increasing,
   non-overlapping line ranges.
   --------------------------------------------------------------------- -/

def chunksOk : Nat → Nat → List RMarkdownChunk → Prop
  | _, _, [] => True
  | cid, lo, c :: rest =>
    c.id = cid + 1 ∧ lo ≤ c.startLine ∧ c.startLine < c.endLine
      ∧ chunksOk (cid + 1) (c.endLine + 1) rest

theorem chunksOk_mono {cid lo lo' : Nat} {cs : List RMarkdownChunk}
    (h : chunksOk cid lo' cs) (hle : lo ≤ lo') : chunksOk cid lo cs := by
  cases cs with
  | nil => trivial
  | cons c rest => exact ⟨h.1, le_trans hle h.2.1, h.2.2⟩

theorem gcGo_ok (lines : List String) : ∀ fuel : Nat,
    (∀ line cid, chunksOk cid line (gcGo lines fuel line cid none))
    ∧ (∀ line cid o lo, o.id = cid + 1 → lo ≤ o.startLine → o.startLine < line →
        chunksOk cid lo (gcGo lines fuel line (cid + 1) (some o))) := by
  intro fuel
  induction fuel with
  | zero => exact ⟨fun _ _ => trivial, fun _ _ _ _ _ _ _ => trivial⟩
  | succ fuel ih =>
    constructor
    · intro line cid
      rw [gcGo]
      by_cases h : line < lines.length
      · rw [dif_pos h]
        by_cases hs : isChunkStartLine (lines.get ⟨line, h⟩)
        · rw [if_pos hs]
          exact ih.2 (line + 1) cid _ line rfl le_rfl (Nat.lt_succ_self line)
        · rw [if_neg hs]
          exact chunksOk_mono (ih.1 (line + 1) cid) (Nat.le_succ line)
      · rw [dif_neg h]; trivial
    · intro line cid o lo hid hlo hline
      rw [gcGo]
      by_cases h : line < lines.length
      · rw [dif_pos h]
        by_cases he : isChunkEndLine (lines.get ⟨line, h⟩)
        · rw [if_pos he]
          refine ⟨hid, hlo, hline, ?_⟩
          exact chunksOk_mono (ih.1 (line + 1) (cid + 1)) le_rfl
        · rw [if_neg he]
          exact ih.2 (line + 1) cid o lo hid hlo (Nat.lt_succ_of_lt hline)
      · rw [dif_neg h]; trivial

theorem getChunks_ok (lines : List String) : chunksOk 0 0 (getChunks lines) :=
  (gcGo_ok lines lines.length).1 0 0

theorem chunksOk_get {cs : List RMarkdownChunk} :
    ∀ {cid lo : Nat}, chunksOk cid lo cs →
      ∀ k (h : k < cs.length), (cs.get ⟨k, h⟩).id = cid + k + 1 := by
  induction cs with
  | nil => intro cid lo _ k h; exact absurd h (Nat.not_lt_zero k)
  | cons c rest ih =>
    intro cid lo hok k h
    cases k with
    | zero => exact hok.1
    | succ k =>
      have hrec := ih hok.2.2.2 k (Nat.lt_of_succ_lt_succ h)
      simp only [List.get_cons_succ]
      omega

theorem chunksOk_startEnd {cs : List RMarkdownChunk} :
    ∀ {cid lo : Nat}, chunksOk cid lo cs → ∀ c ∈ cs, c.startLine < c.endLine := by
  induction cs with
  | nil => intro _ _ _ c hc; exact absurd hc (List.not_mem_nil c)
  | cons c rest ih =>
    intro cid lo hok d hd
    rcases List.mem_cons.mp hd with h | h
    · subst h; exact hok.2.2.1
    · exact ih hok.2.2.2 d h

theorem chunksOk_lo {cs : List RMarkdownChunk} :
    ∀ {cid lo : Nat}, chunksOk cid lo cs → ∀ c ∈ cs, lo ≤ c.startLine := by
  induction cs with
  | nil => intro _ _ _ c hc; exact absurd hc (List.not_mem_nil c)
  | cons c rest ih =>
    intro cid lo hok d hd
    rcases List.mem_cons.mp hd with h | h
    · subst h; exact hok.2.1
    · have hrest := ih hok.2.2.2 d h
      have hse := hok.2.2.1
      have := hok.2.1
      omega

theorem chunksOk_pairwise {cs : List RMarkdownChunk} :
    ∀ {cid lo : Nat}, chunksOk cid lo cs →
      List.Pairwise (fun a b => a.endLine < b.startLine) cs := by
  induction cs with
  | nil => intro _ _ _; exact List.Pairwise.nil
  | cons c rest ih =>
    intro cid lo hok
    refine List.Pairwise.cons ?_ (ih hok.2.2.2)
    intro d hd
    have := chunksOk_lo hok.2.2.2 d hd
    omega

theorem chunksOk_filter_none {cs : List RMarkdownChunk} :
    ∀ {cid lo : Nat}, chunksOk cid lo cs → ∀ i ≤ cid,
      cs.filter (fun e => e.id == i) = [] := by
  induction cs with
  | nil => intro _ _ _ i _; rfl
  | cons c rest ih =>
    intro cid lo hok i hi
    have hne : (c.id == i) = false := by
      have := hok.1; simp only [beq_eq_false_iff_ne]; omega
    simp only [List.filter_cons, hne, Bool.false_eq_true, if_false]
    exact ih hok.2.2.2 i (Nat.le_succ_of_le hi)

theorem chunksOk_filter_one {cs : List RMarkdownChunk} :
    ∀ {cid lo : Nat}, chunksOk cid lo cs → ∀ i, cid + 1 ≤ i → i ≤ cid + cs.length →
      (cs.filter (fun e => e.id == i)).length = 1 := by
  induction cs with
  | nil =>
    intro cid lo _ i h1 h2
    simp only [List.length_nil, Nat.add_zero] at h2
    omega
  | cons c rest ih =>
    intro cid lo hok i h1 h2
    have hcid := hok.1
    by_cases hi : i = cid + 1
    · have heq : (c.id == i) = true := by
        simp only [beq_iff_eq]; omega
      simp only [List.filter_cons, heq, if_true]
      rw [chunksOk_filter_none hok.2.2.2 i (by omega)]
      rfl
    · have hne : (c.id == i) = false := by
        simp only [beq_eq_false_iff_ne]
        omega
      simp only [List.filter_cons, hne, Bool.false_eq_true, if_false]
      refine ih hok.2.2.2 i (by omega) ?_
      simp only [List.length_cons] at h2
      omega

/-- Claim C9: for every document text, getChunks returns chunks whose ids
are exactly 1, 2, ..., n in order of appearance, each with
startLine < endLine, with pairwise non-overlapping (strictly increasing)
line ranges; hence for every i with 1 ≤ i ≤ n, the lookup
`chunks.filter(e => e.id === i)[0]` used by the run and navigation
commands finds exactly one chunk. -/
theorem c9_chunk_ids (text : String) (i : Nat)
    (h1 : 1 ≤ i) (h2 : i ≤ (getChunksOfText text).length) :
    (∀ k (hk : k < (getChunksOfText text).length),
        ((getChunksOfText text).get ⟨k, hk⟩).id = k + 1)
    ∧ (∀ c ∈ getChunksOfText text, c.startLine < c.endLine)
    ∧ List.Pairwise (fun a b => a.endLine < b.startLine) (getChunksOfText text)
    ∧ ((getChunksOfText text).filter (fun e => e.id == i)).length = 1 := by
  have hok := getChunks_ok (splitRNStr text)
  refine ⟨?_, chunksOk_startEnd hok, chunksOk_pairwise hok, ?_⟩
  · intro k hk
    simpa using chunksOk_get hok k hk
  · exact chunksOk_filter_one hok i h1 (by simpa using h2)

theorem c9_witness :
    (1 ≤ 2 ∧ 2 ≤ (getChunksOfText "```\x7br\x7d\n1+1\n```\nok\n```\x7br\x7d\n2+2\n```\n").length)
    ∧ ((∀ k (hk : k < (getChunksOfText "```\x7br\x7d\n1+1\n```\nok\n```\x7br\x7d\n2+2\n```\n").length),
          ((getChunksOfText "```\x7br\x7d\n1+1\n```\nok\n```\x7br\x7d\n2+2\n```\n").get ⟨k, hk⟩).id = k + 1)
       ∧ (∀ c ∈ getChunksOfText "```\x7br\x7d\n1+1\n```\nok\n```\x7br\x7d\n2+2\n```\n",
            c.startLine < c.endLine)
       ∧ List.Pairwise (fun a b => a.endLine < b.startLine)
           (getChunksOfText "```\x7br\x7d\n1+1\n```\nok\n```\x7br\x7d\n2+2\n```\n")
       ∧ ((getChunksOfText "```\x7br\x7d\n1+1\n```\nok\n```\x7br\x7d\n2+2\n```\n").filter
            (fun e => e.id == 2)).length = 1) :=
  ⟨⟨by decide, by decide⟩,
   c9_chunk_ids "```\x7br\x7d\n1+1\n```\nok\n```\x7br\x7d\n2+2\n```\n" 2 (by decide) (by decide)⟩

/- ---------------------------------------------------------------------
   rmarkdown.ts chunk navigation and run commands (lines 221-365).

   The while loops of getCurrentChunk scan the document's lines; the
   downward scan has no bound, so running past the end of the array makes
   JavaScript call `.match` on `undefined` and throw — modeled as `none`.
   `none` throughout these models stands for a computation that either
   threw or produced `undefined` where the caller immediately
   dereferences it.
   --------------------------------------------------------------------- -/

def scanUpAux (p : String → Bool) (lines : List String) : Nat → Int
  | 0 => -1
  | n + 1 => if p (lines.getD n "") then (n : Int) else scanUpAux p lines n

/-- Downward-moving while loop `while (j >= 0 && !p(lines[j])) j--`:
the greatest index at or below `j` whose line satisfies p, or -1. -/
def scanUp (p : String → Bool) (lines : List String) (j : Int) : Int :=
  if j < 0 then -1 else scanUpAux p lines (j.toNat + 1)

def scanDownAux (p : String → Bool) (lines : List String) : Nat → Nat → Option Nat
  | 0, _ => none
  | fuel + 1, j =>
    if h : j < lines.length then
      if p (lines.get ⟨j, h⟩) then some j else scanDownAux p lines fuel (j + 1)
    else none

/-- Upward-moving while loop `while (!p(lines[j])) j++`: the least index
at or after `j` whose line satisfies p, or none when the loop runs past
the end of the array (where the JavaScript code throws). -/
def scanDown (p : String → Bool) (lines : List String) (j : Nat) : Option Nat :=
  scanDownAux p lines (lines.length + 1 - j) j

/-- rmarkdown.ts getCurrentChunk (lines 221-249). -/
def getCurrentChunk (lines : List String) (chunks : List RMarkdownChunk) (line : Nat) :
    Option RMarkdownChunk :=
  let chunkStartLineAtOrAbove := scanUp isChunkStartLine lines (line : Int)
  let chunkEndLineAbove := scanUp isChunkEndLine lines ((line : Int) - 1)
  let target : Option Nat :=
    if chunkEndLineAbove < chunkStartLineAtOrAbove then some chunkStartLineAtOrAbove.toNat
    else scanDown isChunkStartLine lines (line + 1)
  target.bind fun t => (chunks.filter (fun c => c.startLine == t)).head?

/-- rmarkdown.ts getPreviousChunk (lines 265-271). -/
def getPreviousChunk (lines : List String) (chunks : List RMarkdownChunk) (line : Nat) :
    Option RMarkdownChunk :=
  (getCurrentChunk lines chunks line).bind fun currentChunk =>
    let previousChunkId : Int :=
      if currentChunk.endLine < line then (currentChunk.id : Int)
      else (currentChunk.id : Int) - 1
    (chunks.filter (fun c => ((c.id : Int) == previousChunkId))).head?

/-- rmarkdown.ts getNextChunk (lines 273-279). -/
def getNextChunk (lines : List String) (chunks : List RMarkdownChunk) (line : Nat) :
    Option RMarkdownChunk :=
  (getCurrentChunk lines chunks line).bind fun currentChunk =>
    let nextChunkId : Int :=
      if (line : Int) < (currentChunk.startLine : Int) then (currentChunk.id : Int)
      else (currentChunk.id : Int) + 1
    (chunks.filter (fun c => ((c.id : Int) == nextChunkId))).head?

/-- The lookup `chunks.filter(e => e.id === i)[0]` used by the run
commands' loops. -/
def chunkById (chunks : List RMarkdownChunk) (i : Nat) : Option RMarkdownChunk :=
  (chunks.filter (fun e => e.id == i)).head?

/-- The `for (let i = lo; i <= hi; i++) codeRanges.push(...)` loop of the
run commands: collects the code range of the chunk with each id, `none`
when some lookup produces `undefined` (where the code throws on
`.codeRange`). -/
def rangesLoop (chunks : List RMarkdownChunk) : Nat → Nat → Option (List Range4)
  | 0, _ => some []
  | n + 1, i =>
    match chunkById chunks i with
    | some c => (rangesLoop chunks n (i + 1)).map fun rs => c.codeRange :: rs
    | none => none

def rangesByIds (chunks : List RMarkdownChunk) (lo hi : Nat) : Option (List Range4) :=
  rangesLoop chunks (hi + 1 - lo) lo

/-- rmarkdown.ts runCurrentChunk (lines 289-293): the ranges passed to
runChunksInTerm. -/
def runCurrentChunkRanges (lines : List String) (chunks : List RMarkdownChunk)
    (line : Nat) : Option (List Range4) :=
  (getCurrentChunk lines chunks line).map fun currentChunk => [currentChunk.codeRange]

/-- rmarkdown.ts runAboveChunks (lines 307-320). -/
def runAboveChunksRanges (lines : List String) (chunks : List RMarkdownChunk)
    (line : Nat) : Option (List Range4) :=
  (getPreviousChunk lines chunks line).bind fun previousChunk =>
    rangesByIds chunks 1 previousChunk.id

/-- rmarkdown.ts runBelowChunks (lines 322-336). -/
def runBelowChunksRanges (lines : List String) (chunks : List RMarkdownChunk)
    (line : Nat) : Option (List Range4) :=
  (getNextChunk lines chunks line).bind fun nextChunk =>
    rangesByIds chunks nextChunk.id chunks.length

/-- rmarkdown.ts runCurrentAndBelowChunks (lines 338-351). -/
def runCurrentAndBelowChunksRanges (lines : List String) (chunks : List RMarkdownChunk)
    (line : Nat) : Option (List Range4) :=
  (getCurrentChunk lines chunks line).bind fun currentChunk =>
    rangesByIds chunks currentChunk.id chunks.length

/-- rmarkdown.ts runAllChunks (lines 353-365). -/
def runAllChunksRanges (chunks : List RMarkdownChunk) : Option (List Range4) :=
  rangesByIds chunks 1 chunks.length

/-- Reassignment of the `eval` field of a chunk (all other fields kept). -/
def setEval (g : RMarkdownChunk → Bool) (c : RMarkdownChunk) : RMarkdownChunk :=
  { c with eval := g c }

theorem filter_map_setEval (g : RMarkdownChunk → Bool) (q : RMarkdownChunk → Bool)
    (hq : ∀ c, q (setEval g c) = q c) (l : List RMarkdownChunk) :
    (l.map (setEval g)).filter q = (l.filter q).map (setEval g) := by
  induction l with
  | nil => rfl
  | cons c rest ih =>
    simp only [List.map_cons, List.filter_cons, hq c]
    by_cases h : q c
    · simp only [h, if_true, List.map_cons, ih]
    · simp only [h, Bool.false_eq_true, if_false, ih]

theorem head?_map_setEval (g : RMarkdownChunk → Bool) (l : List RMarkdownChunk) :
    (l.map (setEval g)).head? = l.head?.map (setEval g) := by
  cases l <;> rfl

theorem filterHead_setEval (g : RMarkdownChunk → Bool) (chunks : List RMarkdownChunk)
    (q : RMarkdownChunk → Bool) (hq : ∀ c, q (setEval g c) = q c) :
    ((chunks.map (setEval g)).filter q).head? = ((chunks.filter q).head?).map (setEval g) := by
  rw [filter_map_setEval g q hq, head?_map_setEval]

theorem bindFilterHead (t? : Option Nat) (g : RMarkdownChunk → Bool)
    (chunks : List RMarkdownChunk) (p : Nat → RMarkdownChunk → Bool)
    (hp : ∀ t c, p t (setEval g c) = p t c) :
    (t?.bind fun t => ((chunks.map (setEval g)).filter (p t)).head?)
      = (t?.bind fun t => (chunks.filter (p t)).head?).map (setEval g) := by
  cases t? with
  | none => rfl
  | some t =>
    show ((chunks.map (setEval g)).filter (p t)).head?
        = ((chunks.filter (p t)).head?).map (setEval g)
    exact filterHead_setEval g chunks (p t) (hp t)

theorem getCurrentChunk_setEval (g : RMarkdownChunk → Bool) (lines : List String)
    (chunks : List RMarkdownChunk) (line : Nat) :
    getCurrentChunk lines (chunks.map (setEval g)) line
      = (getCurrentChunk lines chunks line).map (setEval g) := by
  simp only [getCurrentChunk]
  exact bindFilterHead _ g chunks (fun t c => c.startLine == t) (fun _ _ => rfl)

theorem chunkById_setEval (g : RMarkdownChunk → Bool) (chunks : List RMarkdownChunk)
    (i : Nat) :
    chunkById (chunks.map (setEval g)) i = (chunkById chunks i).map (setEval g) := by
  unfold chunkById
  exact filterHead_setEval g chunks (fun e => e.id == i) (fun _ => rfl)

theorem rangesLoop_setEval (g : RMarkdownChunk → Bool) (chunks : List RMarkdownChunk) :
    ∀ n i, rangesLoop (chunks.map (setEval g)) n i = rangesLoop chunks n i := by
  intro n
  induction n with
  | zero => intro i; rfl
  | succ n ih =>
    intro i
    rw [rangesLoop, rangesLoop, chunkById_setEval]
    cases chunkById chunks i with
    | none => rfl
    | some c =>
      show ((rangesLoop (chunks.map (setEval g)) n (i + 1)).map
          fun rs => (setEval g c).codeRange :: rs) = _
      rw [ih]
      rfl

theorem rangesByIds_setEval (g : RMarkdownChunk → Bool) (chunks : List RMarkdownChunk)
    (lo hi : Nat) :
    rangesByIds (chunks.map (setEval g)) lo hi = rangesByIds chunks lo hi := by
  unfold rangesByIds
  exact rangesLoop_setEval g chunks (hi + 1 - lo) lo

theorem getPreviousChunk_setEval (g : RMarkdownChunk → Bool) (lines : List String)
    (chunks : List RMarkdownChunk) (line : Nat) :
    getPreviousChunk lines (chunks.map (setEval g)) line
      = (getPreviousChunk lines chunks line).map (setEval g) := by
  simp only [getPreviousChunk]
  rw [getCurrentChunk_setEval]
  cases getCurrentChunk lines chunks line with
  | none => rfl
  | some cur =>
    show ((chunks.map (setEval g)).filter _).head? = ((chunks.filter _).head?).map (setEval g)
    exact filterHead_setEval g chunks
      (fun c => ((c.id : Int) ==
        if cur.endLine < line then (cur.id : Int) else (cur.id : Int) - 1))
      (fun _ => rfl)

theorem getNextChunk_setEval (g : RMarkdownChunk → Bool) (lines : List String)
    (chunks : List RMarkdownChunk) (line : Nat) :
    getNextChunk lines (chunks.map (setEval g)) line
      = (getNextChunk lines chunks line).map (setEval g) := by
  simp only [getNextChunk]
  rw [getCurrentChunk_setEval]
  cases getCurrentChunk lines chunks line with
  | none => rfl
  | some cur =>
    show ((chunks.map (setEval g)).filter _).head? = ((chunks.filter _).head?).map (setEval g)
    exact filterHead_setEval g chunks
      (fun c => ((c.id : Int) ==
        if (line : Int) < (cur.startLine : Int) then (cur.id : Int) else (cur.id : Int) + 1))
      (fun _ => rfl)

/-- Claim C10: the parsed `eval=FALSE` / `eval=F` flag is stored in the
chunk's eval field (getChunkEval returns false on those options), but no
run command reads it: reassigning every chunk's eval field arbitrarily
changes neither the code ranges selected by runCurrentChunk,
runAboveChunks, runBelowChunks, runCurrentAndBelowChunks and runAllChunks
nor whether they fail — every selected chunk's code range is included
regardless of its eval value. -/
theorem c10_eval_ignored (lines : List String) (chunks : List RMarkdownChunk)
    (line : Nat) (g : RMarkdownChunk → Bool) :
    runCurrentChunkRanges lines (chunks.map (setEval g)) line
        = runCurrentChunkRanges lines chunks line
    ∧ runAboveChunksRanges lines (chunks.map (setEval g)) line
        = runAboveChunksRanges lines chunks line
    ∧ runBelowChunksRanges lines (chunks.map (setEval g)) line
        = runBelowChunksRanges lines chunks line
    ∧ runCurrentAndBelowChunksRanges lines (chunks.map (setEval g)) line
        = runCurrentAndBelowChunksRanges lines chunks line
    ∧ runAllChunksRanges (chunks.map (setEval g)) = runAllChunksRanges chunks
    ∧ getChunkEval "eval=FALSE" = false ∧ getChunkEval "eval=F" = false := by
  refine ⟨?_, ?_, ?_, ?_, ?_, by decide, by decide⟩
  · unfold runCurrentChunkRanges
    rw [getCurrentChunk_setEval]
    cases getCurrentChunk lines chunks line <;> rfl
  · unfold runAboveChunksRanges
    rw [getPreviousChunk_setEval]
    cases getPreviousChunk lines chunks line with
    | none => rfl
    | some pc =>
      show rangesByIds (chunks.map (setEval g)) 1 (setEval g pc).id = rangesByIds chunks 1 pc.id
      exact rangesByIds_setEval g chunks 1 pc.id
  · unfold runBelowChunksRanges
    rw [getNextChunk_setEval]
    cases getNextChunk lines chunks line with
    | none => rfl
    | some nc =>
      show rangesByIds (chunks.map (setEval g)) (setEval g nc).id (chunks.map (setEval g)).length
          = rangesByIds chunks nc.id chunks.length
      rw [List.length_map]
      exact rangesByIds_setEval g chunks nc.id chunks.length
  · unfold runCurrentAndBelowChunksRanges
    rw [getCurrentChunk_setEval]
    cases getCurrentChunk lines chunks line with
    | none => rfl
    | some cc =>
      show rangesByIds (chunks.map (setEval g)) (setEval g cc).id (chunks.map (setEval g)).length
          = rangesByIds chunks cc.id chunks.length
      rw [List.length_map]
      exact rangesByIds_setEval g chunks cc.id chunks.length
  · unfold runAllChunksRanges
    rw [List.length_map]
    exact rangesByIds_setEval g chunks 1 chunks.length

/- ---------------------------------------------------------------------
   RNotebookProvider.openNotebook (rTerminal.ts lines 457-542) and
   RNotebookProvider.save (lines 544-569): the document-to-cells parse
   and cells-to-document serialization.
   --------------------------------------------------------------------- -/

/-- JavaScript's `s.startsWith(pre)`. -/
def jsStartsWith (s pre : String) : Bool :=
  pre.data.isPrefixOf s.data

structure NbCell where
  isCode : Bool
  source : String
  language : String
  runnable : Bool
  header : Option String
  footer : Option String
deriving DecidableEq, Repr

def mdCell (src : String) : NbCell :=
  { isCode := false, source := src, language := "markdown", runnable := false,
    header := none, footer := none }

def yamlCell (src : String) : NbCell :=
  { isCode := true, source := src, language := "yaml", runnable := false,
    header := none, footer := none }

def rCell (src hdr ftr : String) : NbCell :=
  { isCode := true, source := src, language := "r", runnable := true,
    header := some hdr, footer := some ftr }

/-- JavaScript's `array.join('\n')`. -/
def joinNL : List String → String
  | [] => ""
  | [s] => s
  | s :: rest => s ++ "\n" ++ joinNL rest

/-- JavaScript's `lines.slice(a, b)` for a ≤ b within range. -/
def sliceL (lines : List String) (a b : Nat) : List String :=
  (lines.drop a).take (b - a)

/-- The scanner state of openNotebook's while loop: the source's
`cellType` local takes exactly the three string values 'markdown',
'yaml' and 'r'. -/
inductive CellType
  | markdown | yaml | r
deriving DecidableEq, Repr

/-- The while loop of openNotebook.  One iteration per line (`fuel`
counts the remaining iterations; openNotebook passes `lines.length`).
The current line `lines[line]` is read as `lines.getD line ""`; the loop
condition guarantees the index is in range. -/
def ntGo (lines : List String) : Nat → Nat → Nat → CellType → List NbCell
  | 0, _, _, _ => []
  | fuel + 1, line, cellStartLine, CellType.markdown =>
    if line < lines.length then
      if jsStartsWith (lines.getD line "") "---" then
        ntGo lines fuel (line + 1) line CellType.yaml
      else if jsStartsWith (lines.getD line "") "```\x7br" then
        (if cellStartLine < line then
          [mdCell (joinNL (sliceL lines cellStartLine line))] else [])
          ++ ntGo lines fuel (line + 1) line CellType.r
      else if line = lines.length - 1 then
        (if cellStartLine < line then
          [mdCell (joinNL (sliceL lines cellStartLine line))] else [])
          ++ ntGo lines fuel (line + 1) cellStartLine CellType.markdown
      else ntGo lines fuel (line + 1) cellStartLine CellType.markdown
    else []
  | fuel + 1, line, cellStartLine, CellType.yaml =>
    if line < lines.length then
      if jsStartsWith (lines.getD line "") "---" then
        yamlCell (joinNL (sliceL lines cellStartLine (line + 1)))
          :: ntGo lines fuel (line + 1) (line + 1) CellType.markdown
      else ntGo lines fuel (line + 1) cellStartLine CellType.yaml
    else []
  | fuel + 1, line, cellStartLine, CellType.r =>
    if line < lines.length then
      if jsStartsWith (lines.getD line "") "```" then
        rCell (joinNL (sliceL lines (cellStartLine + 1) line))
            (lines.getD cellStartLine "") (lines.getD line "")
          :: ntGo lines fuel (line + 1) (line + 1) CellType.markdown
      else ntGo lines fuel (line + 1) cellStartLine CellType.r
    else []

def parseCells (lines : List String) : List NbCell :=
  ntGo lines lines.length 0 0 CellType.markdown

/-- openNotebook's cell list for a document text: split into lines, then
scan. -/
def openNotebookCells (text : String) : List NbCell :=
  parseCells (splitRNStr text)

/-- One cell's contribution to `save`'s accumulated content (rTerminal.ts
lines 550-566): markdown text plus newline; r code wrapped in the
retained (or default) fences; yaml text plus a blank line; other
languages wrapped in a default fence for their language. -/
def serializeCell (cell : NbCell) : String :=
  if cell.isCode = false then cell.source ++ "\n"
  else if cell.language = "r" then
    (cell.header.getD "```\x7br\x7d") ++ "\n" ++ cell.source ++ "\n"
      ++ (cell.footer.getD "```") ++ "\n"
  else if cell.language = "yaml" then cell.source ++ "\n\n"
  else "```\x7b" ++ cell.language ++ "\x7d\n" ++ cell.source ++ "\n```\n"

/-- RNotebookProvider.save: the content string accumulated over the
cells. -/
def saveContent (cells : List NbCell) : String :=
  cells.foldl (fun content c => content ++ serializeCell c) ""

/- ---------------------------------------------------------------------
   Well-formed documents for the round-trip property: a sequence of
   markdown lines and fenced target-language blocks, rendered to the line
   list the parser scans (the final "" is the empty last line of a text
   ending in a newline).
   --------------------------------------------------------------------- -/

inductive Block
  | mdLine (l : String)
  | rblock (header : String) (body : List String) (footer : String)
deriving DecidableEq, Repr

def blockLines : Block → List String
  | Block.mdLine l => [l]
  | Block.rblock h b f => h :: b ++ [f]

def docLines : List Block → List String
  | [] => []
  | b :: rest => blockLines b ++ docLines rest

def renderLines (d : List Block) : List String :=
  docLines d ++ [""]

def goodLine (s : String) : Prop :=
  '\n' ∉ s.data ∧ '\r' ∉ s.data

instance (s : String) : Decidable (goodLine s) := by
  unfold goodLine
  infer_instance

def blockOk : Block → Prop
  | Block.mdLine l =>
      goodLine l ∧ jsStartsWith l "---" = false ∧ jsStartsWith l "```\x7br" = false
  | Block.rblock h b f =>
      goodLine h ∧ jsStartsWith h "```\x7br" = true ∧ jsStartsWith h "---" = false
        ∧ (∀ l ∈ b, goodLine l ∧ jsStartsWith l "```" = false)
        ∧ goodLine f ∧ jsStartsWith f "```" = true

instance (b : Block) : Decidable (blockOk b) := by
  cases b <;> (unfold blockOk; infer_instance)

def docOk (d : List Block) : Prop := ∀ b ∈ d, blockOk b

instance (d : List Block) : Decidable (docOk d) := by
  unfold docOk
  infer_instance

/-- The cell sequence a well-formed document parses to, by blocks:
consecutive markdown lines accumulate into one markdown cell, flushed
before each code block and (if nonempty) at end of input; each fenced
block yields one r cell retaining its fences. -/
def cellsAux : List String → List Block → List NbCell
  | pend, [] => if pend.isEmpty then [] else [mdCell (joinNL pend)]
  | pend, Block.mdLine l :: rest => cellsAux (pend ++ [l]) rest
  | pend, Block.rblock h b f :: rest =>
    (if pend.isEmpty then [] else [mdCell (joinNL pend)])
      ++ rCell (joinNL b) h f :: cellsAux [] rest

/-- Accumulator presentation of the openNotebook scanner: `acc` holds the
lines from `cellStartLine` up to (excluding) the current line, and the
remaining lines are passed structurally.  `ntGo_eq_ntAcc` proves it
equal to `ntGo`. -/
def ntAcc : List String → List String → CellType → List NbCell
  | _, [], _ => []
  | pend, l :: rest, CellType.markdown =>
    if jsStartsWith l "---" then ntAcc [l] rest CellType.yaml
    else if jsStartsWith l "```\x7br" then
      (if pend.isEmpty then [] else [mdCell (joinNL pend)]) ++ ntAcc [l] rest CellType.r
    else if rest.isEmpty then
      (if pend.isEmpty then [] else [mdCell (joinNL pend)])
        ++ ntAcc (pend ++ [l]) rest CellType.markdown
    else ntAcc (pend ++ [l]) rest CellType.markdown
  | acc, l :: rest, CellType.yaml =>
    if jsStartsWith l "---" then
      yamlCell (joinNL (acc ++ [l])) :: ntAcc [] rest CellType.markdown
    else ntAcc (acc ++ [l]) rest CellType.yaml
  | acc, l :: rest, CellType.r =>
    if jsStartsWith l "```" then
      rCell (joinNL (acc.drop 1)) (acc.headD "") l :: ntAcc [] rest CellType.markdown
    else ntAcc (acc ++ [l]) rest CellType.r

theorem getD_len (Q : List String) (l : String) (R : List String) :
    (Q ++ l :: R).getD Q.length "" = l := by
  induction Q with
  | nil => rfl
  | cons q Q ih => simpa using ih

theorem getD_mid (P acc : List String) (l : String) (rest : List String) :
    (P ++ acc ++ l :: rest).getD (P.length + acc.length) "" = l := by
  have h := getD_len (P ++ acc) l rest
  simpa [List.append_assoc, List.length_append] using h

theorem sliceL_concat (P acc rest : List String) :
    sliceL (P ++ acc ++ rest) P.length (P.length + acc.length) = acc := by
  unfold sliceL
  rw [List.append_assoc, List.drop_left, Nat.add_sub_cancel_left, List.take_left]

theorem sliceL_concat1 (P acc : List String) (l : String) (rest : List String) :
    sliceL (P ++ acc ++ l :: rest) P.length (P.length + acc.length + 1) = acc ++ [l] := by
  have h := sliceL_concat P (acc ++ [l]) rest
  simpa [List.append_assoc, List.length_append, Nat.add_assoc] using h

theorem sliceL_drop1 (P acc rest : List String) :
    sliceL (P ++ acc ++ rest) (P.length + 1) (P.length + acc.length) = acc.drop 1 := by
  cases acc with
  | nil =>
    have h0 : P.length + ([] : List String).length - (P.length + 1) = 0 := by simp
    simp [sliceL, h0]
  | cons a acc' =>
    have h := sliceL_concat (P ++ [a]) acc' rest
    simpa [List.append_assoc, List.length_append, Nat.add_assoc, Nat.add_comm 1 acc'.length]
      using h

theorem headD_append_ne (acc : List String) (x : String) (h : acc ≠ []) :
    (acc ++ [x]).headD "" = acc.headD "" := by
  cases acc with
  | nil => exact absurd rfl h
  | cons a acc' => rfl

theorem flush_eq (P acc : List String) :
    (if P.length < P.length + acc.length then [mdCell (joinNL acc)] else [])
      = (if acc.isEmpty then [] else [mdCell (joinNL acc)]) := by
  cases acc <;> simp

theorem ntGo_eq_ntAcc :
    ∀ (rest acc P : List String) (ct : CellType),
      (ct = CellType.r → acc ≠ []) →
      ntGo (P ++ acc ++ rest) rest.length (P.length + acc.length) P.length ct
        = ntAcc acc rest ct := by
  intro rest
  induction rest with
  | nil =>
    intro acc P ct _
    cases ct <;> rfl
  | cons l rest' ih =>
    intro acc P ct hr
    cases ct with
    | markdown =>
      have hlen : P.length + acc.length < (P ++ acc ++ l :: rest').length := by
        simp [List.length_append]
      have hget : (P ++ acc ++ l :: rest').getD (P.length + acc.length) "" = l :=
        getD_mid P acc l rest'
      simp only [List.length_cons]
      rw [ntGo, if_pos hlen, hget, ntAcc]
      by_cases h1 : jsStartsWith l "---" = true
      · rw [if_pos h1, if_pos h1]
        have elist : P ++ acc ++ l :: rest' = (P ++ acc) ++ [l] ++ rest' := by simp
        have eidx2 : P.length + acc.length = (P ++ acc).length := by simp
        rw [elist, eidx2]
        have hy := ih [l] (P ++ acc) CellType.yaml (fun h => nomatch h)
        simpa using hy
      · rw [if_neg h1, if_neg h1]
        by_cases h2 : jsStartsWith l "```\x7br" = true
        · rw [if_pos h2, if_pos h2, sliceL_concat P acc (l :: rest'), flush_eq]
          have elist : P ++ acc ++ l :: rest' = (P ++ acc) ++ [l] ++ rest' := by simp
          have eidx2 : P.length + acc.length = (P ++ acc).length := by simp
          rw [elist, eidx2]
          have hrr := ih [l] (P ++ acc) CellType.r (fun _ => by simp)
          simpa using hrr
        · rw [if_neg h2, if_neg h2]
          cases rest' with
          | nil =>
            have hlast : P.length + acc.length = (P ++ acc ++ [l]).length - 1 := by
              simp [List.length_append]
            rw [if_pos hlast, if_pos (by rfl : (List.isEmpty ([] : List String)) = true),
              sliceL_concat P acc [l], flush_eq]
            rfl
          | cons x rest'' =>
            have hlast :
                ¬ (P.length + acc.length = (P ++ acc ++ l :: x :: rest'').length - 1) := by
              simp only [List.length_append, List.length_cons]
              omega
            rw [if_neg hlast, if_neg (by simp : ¬ (List.isEmpty (x :: rest'') = true))]
            have elist : P ++ acc ++ l :: x :: rest'' = P ++ (acc ++ [l]) ++ x :: rest'' := by
              simp
            have eidx : P.length + acc.length + 1 = P.length + (acc ++ [l]).length := by
              simp only [List.length_append, List.length_cons, List.length_nil]
              try omega
            rw [elist, eidx]
            exact ih (acc ++ [l]) P CellType.markdown (fun h => nomatch h)
    | yaml =>
      have hlen : P.length + acc.length < (P ++ acc ++ l :: rest').length := by
        simp [List.length_append]
      have hget : (P ++ acc ++ l :: rest').getD (P.length + acc.length) "" = l :=
        getD_mid P acc l rest'
      simp only [List.length_cons]
      rw [ntGo, if_pos hlen, hget, ntAcc]
      by_cases h1 : jsStartsWith l "---" = true
      · rw [if_pos h1, if_pos h1, sliceL_concat1 P acc l rest']
        have elist : P ++ acc ++ l :: rest' = (P ++ acc ++ [l]) ++ [] ++ rest' := by simp
        have eidx : P.length + acc.length + 1
            = (P ++ acc ++ [l]).length + ([] : List String).length := by
          simp only [List.length_append, List.length_cons, List.length_nil]
          try omega
        rw [elist, eidx]
        have hm := ih [] (P ++ acc ++ [l]) CellType.markdown (fun h => nomatch h)
        simpa using hm
      · rw [if_neg h1, if_neg h1]
        have elist : P ++ acc ++ l :: rest' = P ++ (acc ++ [l]) ++ rest' := by simp
        have eidx : P.length + acc.length + 1 = P.length + (acc ++ [l]).length := by
          simp only [List.length_append, List.length_cons, List.length_nil]
          try omega
        rw [elist, eidx]
        exact ih (acc ++ [l]) P CellType.yaml (fun h => nomatch h)
    | r =>
      obtain ⟨a, acc', rfl⟩ := List.exists_cons_of_ne_nil (hr rfl)
      simp only [List.length_cons]
      have hlen : P.length + (acc'.length + 1) < (P ++ a :: acc' ++ l :: rest').length := by
        simp only [List.length_append, List.length_cons]
        omega
      have hget : (P ++ a :: acc' ++ l :: rest').getD (P.length + (acc'.length + 1)) "" = l := by
        have hg := getD_mid P (a :: acc') l rest'
        simpa using hg
      rw [ntGo, if_pos hlen, hget, ntAcc]
      by_cases h1 : jsStartsWith l "```" = true
      · have hsl := sliceL_drop1 P (a :: acc') (l :: rest')
        simp only [List.length_cons] at hsl
        have hhd : (P ++ a :: acc' ++ l :: rest').getD P.length "" = a := by
          have hg2 := getD_len P a (acc' ++ l :: rest')
          simpa using hg2
        rw [if_pos h1, if_pos h1, hsl, hhd]
        have elist : P ++ a :: acc' ++ l :: rest'
            = (P ++ a :: acc' ++ [l]) ++ [] ++ rest' := by simp
        have eidx : P.length + (acc'.length + 1) + 1
            = (P ++ a :: acc' ++ [l]).length + ([] : List String).length := by
          simp only [List.length_append, List.length_cons, List.length_nil]
          try omega
        rw [elist, eidx]
        have hm := ih [] (P ++ a :: acc' ++ [l]) CellType.markdown (fun h => nomatch h)
        simpa using hm
      · rw [if_neg h1, if_neg h1]
        have elist : P ++ a :: acc' ++ l :: rest' = P ++ (a :: acc' ++ [l]) ++ rest' := by
          simp
        have eidx : P.length + (acc'.length + 1) + 1 = P.length + (a :: acc' ++ [l]).length := by
          simp only [List.length_append, List.length_cons, List.length_nil]
          try omega
        rw [elist, eidx]
        exact ih (a :: acc' ++ [l]) P CellType.r (fun _ => by simp)

theorem parseCells_eq_ntAcc (lines : List String) :
    parseCells lines = ntAcc [] lines CellType.markdown := by
  have h := ntGo_eq_ntAcc lines [] [] CellType.markdown (fun h => nomatch h)
  simpa [parseCells] using h

theorem ntAcc_rscan (f : String) (T : List String) (hf : jsStartsWith f "```" = true) :
    ∀ (b acc : List String), (∀ x ∈ b, jsStartsWith x "```" = false) → acc ≠ [] →
      ntAcc acc (b ++ f :: T) CellType.r
        = rCell (joinNL ((acc ++ b).drop 1)) (acc.headD "") f
            :: ntAcc [] T CellType.markdown := by
  intro b
  induction b with
  | nil =>
    intro acc _ _
    simp only [List.nil_append]
    rw [ntAcc, if_pos hf]
    simp
  | cons x b' ihb =>
    intro acc hb hacc
    have hx : jsStartsWith x "```" = false := hb x (List.mem_cons_self _ _)
    simp only [List.cons_append]
    rw [ntAcc, if_neg (by simp [hx])]
    have hrec := ihb (acc ++ [x]) (fun y hy => hb y (List.mem_cons_of_mem _ hy)) (by simp)
    rw [hrec, headD_append_ne acc x hacc]
    have e : acc ++ [x] ++ b' = acc ++ x :: b' := by simp
    rw [e]

theorem ntAcc_doc :
    ∀ (d : List Block) (pend : List String), docOk d →
      ntAcc pend (docLines d ++ [""]) CellType.markdown = cellsAux pend d := by
  intro d
  induction d with
  | nil =>
    intro pend _
    simp only [docLines, List.nil_append]
    rw [ntAcc, if_neg (by decide), if_neg (by decide), if_pos (by rfl)]
    rw [cellsAux]
    cases pend <;> simp [ntAcc]
  | cons blk rest ihd =>
    intro pend hok
    have hok' : docOk rest := fun b hb => hok b (List.mem_cons_of_mem _ hb)
    cases blk with
    | mdLine l =>
      obtain ⟨-, h1, h2⟩ := hok _ (List.mem_cons_self _ _)
      have e : docLines (Block.mdLine l :: rest) ++ [""] = l :: (docLines rest ++ [""]) := by
        simp [docLines, blockLines]
      rw [e, ntAcc, if_neg (by simp [h1]), if_neg (by simp [h2]),
        if_neg (by simp : ¬ (List.isEmpty (docLines rest ++ [""]) = true))]
      rw [ihd (pend ++ [l]) hok']
      rfl
    | rblock h b f =>
      obtain ⟨-, hh1, hh2, hb, -, hf⟩ := hok _ (List.mem_cons_self _ _)
      have e : docLines (Block.rblock h b f :: rest) ++ [""]
          = h :: (b ++ f :: (docLines rest ++ [""])) := by
        simp [docLines, blockLines]
      rw [e, ntAcc, if_neg (by simp [hh2]), if_pos hh1]
      rw [ntAcc_rscan f (docLines rest ++ [""]) hf b [h]
        (fun x hx => (hb x hx).2) (by simp)]
      rw [ihd [] hok']
      rfl

theorem strAppend_data (a b : String) : (a ++ b).data = a.data ++ b.data :=
  String.data_append a b

theorem strAppend_empty (s : String) : s ++ "" = s := by
  apply String.ext
  simp [strAppend_data]

theorem strEmpty_append (s : String) : "" ++ s = s := by
  apply String.ext
  simp [strAppend_data]

theorem splitRNList_cons (c : Char) (cs : List Char) (h1 : c ≠ '\n') (h2 : c ≠ '\r') :
    splitRNList (c :: cs) = consHead c (splitRNList cs) := by
  rw [splitRNList.eq_def]
  split <;> simp_all

theorem splitRNList_append_line (l : List Char) (rest : List Char)
    (h1 : '\n' ∉ l) (h2 : '\r' ∉ l) :
    splitRNList (l ++ '\n' :: rest) = l :: splitRNList rest := by
  induction l with
  | nil => rfl
  | cons c l' ih =>
    have hc1 : c ≠ '\n' := fun h => h1 (h ▸ List.mem_cons_self c l')
    have hc2 : c ≠ '\r' := fun h => h2 (h ▸ List.mem_cons_self c l')
    have h1' : '\n' ∉ l' := fun h => h1 (List.mem_cons_of_mem c h)
    have h2' : '\r' ∉ l' := fun h => h2 (List.mem_cons_of_mem c h)
    rw [List.cons_append, splitRNList_cons c _ hc1 hc2, ih h1' h2']
    rfl

theorem splitRN_line_str (l : String) (rest : List Char) (hg : goodLine l) :
    splitRNList (l.data ++ '\n' :: rest) = l.data :: splitRNList rest :=
  splitRNList_append_line l.data rest hg.1 hg.2

theorem joinNL_data_cons (l : String) (ls : List String) (h : ls ≠ []) :
    (joinNL (l :: ls)).data = l.data ++ '\n' :: (joinNL ls).data := by
  cases ls with
  | nil => exact absurd rfl h
  | cons m ls' =>
    show (l ++ "\n" ++ joinNL (m :: ls')).data = _
    simp [strAppend_data]

theorem splitRN_join (ls : List String) (rest : List Char) (hne : ls ≠ [])
    (hg : ∀ l ∈ ls, goodLine l) :
    splitRNList ((joinNL ls).data ++ '\n' :: rest)
      = ls.map String.data ++ splitRNList rest := by
  induction ls with
  | nil => exact absurd rfl hne
  | cons l ls' ih =>
    cases ls' with
    | nil =>
      show splitRNList (l.data ++ '\n' :: rest) = [l.data] ++ splitRNList rest
      rw [splitRN_line_str l rest (hg l (List.mem_cons_self _ _))]
      rfl
    | cons m ls'' =>
      rw [joinNL_data_cons l (m :: ls'') (by simp), List.append_assoc, List.cons_append]
      rw [splitRN_line_str l _ (hg l (List.mem_cons_self _ _))]
      rw [ih (by simp) (fun x hx => hg x (List.mem_cons_of_mem _ hx))]
      rfl

theorem saveContent_foldl (cells : List NbCell) (init : String) :
    cells.foldl (fun content c => content ++ serializeCell c) init
      = init ++ saveContent cells := by
  induction cells generalizing init with
  | nil =>
    show init = init ++ ""
    rw [strAppend_empty]
  | cons c cells' ih =>
    show cells'.foldl _ (init ++ serializeCell c) = init ++ saveContent (c :: cells')
    rw [ih (init ++ serializeCell c)]
    have hc : saveContent (c :: cells') = serializeCell c ++ saveContent cells' := by
      show cells'.foldl _ ("" ++ serializeCell c) = _
      rw [ih ("" ++ serializeCell c), strEmpty_append]
    rw [hc]
    apply String.ext
    simp [strAppend_data]

theorem saveContent_cons (c : NbCell) (cells : List NbCell) :
    saveContent (c :: cells) = serializeCell c ++ saveContent cells := by
  show cells.foldl _ ("" ++ serializeCell c) = _
  rw [saveContent_foldl cells ("" ++ serializeCell c), strEmpty_append]

theorem saveContent_append (xs ys : List NbCell) :
    saveContent (xs ++ ys) = saveContent xs ++ saveContent ys := by
  induction xs with
  | nil =>
    show saveContent ys = saveContent [] ++ saveContent ys
    have h0 : saveContent [] = "" := rfl
    rw [h0, strEmpty_append]
  | cons c xs' ih =>
    rw [List.cons_append, saveContent_cons, saveContent_cons, ih]
    apply String.ext
    simp [strAppend_data]

theorem serializeCell_md (s : String) : serializeCell (mdCell s) = s ++ "\n" := rfl

theorem serializeCell_r (s h f : String) :
    serializeCell (rCell s h f) = h ++ "\n" ++ s ++ "\n" ++ f ++ "\n" := rfl

theorem data_nl : ("\n" : String).data = ['\n'] := rfl

theorem data_empty : ("" : String).data = [] := rfl

theorem splitRN_nil : splitRNList [] = [[]] := rfl

theorem splitRN_nl (X : List Char) : splitRNList ('\n' :: X) = [] :: splitRNList X := rfl

/-- Body normalization of a serialize/re-parse cycle: an empty code-block
body reads back as the single empty line the serializer's two adjacent
newlines produce. -/
def normBody (b : List String) : List String :=
  if b.isEmpty then [""] else b

def normBlock : Block → Block
  | Block.rblock h b f => Block.rblock h (normBody b) f
  | b => b

def normBlocks (d : List Block) : List Block := d.map normBlock

theorem splitRN_flush (pend : List String) (X : List Char)
    (hg : ∀ l ∈ pend, goodLine l) :
    splitRNList ((saveContent (if pend.isEmpty then [] else [mdCell (joinNL pend)])).data ++ X)
      = pend.map String.data ++ splitRNList X := by
  cases pend with
  | nil => rfl
  | cons p ps =>
    rw [if_neg (by simp : ¬ (List.isEmpty (p :: ps) = true))]
    rw [saveContent_cons, serializeCell_md]
    have h0 : saveContent [] = "" := rfl
    rw [h0, strAppend_empty, strAppend_data, data_nl, List.append_assoc,
      List.singleton_append]
    rw [splitRN_join (p :: ps) X (by simp) hg]

theorem splitRN_rsegment (h f : String) (b : List String) (X : List Char)
    (hgh : goodLine h) (hgf : goodLine f) (hgb : ∀ l ∈ b, goodLine l) :
    splitRNList ((h ++ "\n" ++ joinNL b ++ "\n" ++ f ++ "\n").data ++ X)
      = h.data :: (normBody b).map String.data ++ f.data :: splitRNList X := by
  simp only [strAppend_data, data_nl, List.append_assoc, List.singleton_append,
    List.cons_append, List.nil_append]
  rw [splitRN_line_str h _ hgh]
  cases b with
  | nil =>
    show h.data :: splitRNList (("" : String).data ++ '\n' :: (f.data ++ '\n' :: X)) = _
    rw [data_empty, List.nil_append, splitRN_nl, splitRN_line_str f _ hgf]
    rfl
  | cons x b' =>
    rw [splitRN_join (x :: b') _ (by simp) hgb, splitRN_line_str f _ hgf]
    simp [normBody]

theorem split_save_data :
    ∀ (d : List Block) (pend : List String), docOk d → (∀ l ∈ pend, goodLine l) →
      splitRNList (saveContent (cellsAux pend d)).data
        = (pend ++ docLines (normBlocks d)).map String.data ++ [[]] := by
  intro d
  induction d with
  | nil =>
    intro pend _ hg
    rw [cellsAux]
    have hfl := splitRN_flush pend [] hg
    simpa [splitRN_nil, normBlocks, docLines] using hfl
  | cons blk rest ihd =>
    intro pend hok hg
    have hok' : docOk rest := fun b hb => hok b (List.mem_cons_of_mem _ hb)
    cases blk with
    | mdLine l =>
      obtain ⟨hgl, -, -⟩ := hok _ (List.mem_cons_self _ _)
      rw [cellsAux]
      rw [ihd (pend ++ [l]) hok' (by
        intro x hx
        rcases List.mem_append.mp hx with hx1 | hx1
        · exact hg x hx1
        · rw [List.mem_singleton.mp hx1]; exact hgl)]
      simp [normBlocks, normBlock, docLines, blockLines, List.append_assoc]
    | rblock h b f =>
      obtain ⟨hgh, -, -, hgb, hgf, -⟩ := hok _ (List.mem_cons_self _ _)
      rw [cellsAux, saveContent_append, saveContent_cons, serializeCell_r]
      rw [strAppend_data, strAppend_data]
      rw [splitRN_flush pend _ hg]
      rw [splitRN_rsegment h f b _ hgh hgf (fun l hl => (hgb l hl).1)]
      rw [ihd [] hok' (by intro x hx; cases hx)]
      simp [normBlocks, normBlock, docLines, blockLines, List.map_append, List.append_assoc]

theorem joinNL_normBody (b : List String) : joinNL (normBody b) = joinNL b := by
  cases b <;> rfl

theorem cellsAux_norm (d : List Block) : ∀ pend, cellsAux pend (normBlocks d) = cellsAux pend d := by
  induction d with
  | nil => intro pend; rfl
  | cons blk rest ih =>
    intro pend
    cases blk with
    | mdLine l =>
      show cellsAux pend (Block.mdLine l :: normBlocks rest) = _
      rw [cellsAux, cellsAux, ih]
    | rblock h b f =>
      show cellsAux pend (Block.rblock h (normBody b) f :: normBlocks rest) = _
      rw [cellsAux, cellsAux, ih, joinNL_normBody]

theorem blockOk_norm (b : Block) (hb : blockOk b) : blockOk (normBlock b) := by
  cases b with
  | mdLine l => exact hb
  | rblock h body f =>
    obtain ⟨g1, g2, g3, g4, g5, g6⟩ := hb
    refine ⟨g1, g2, g3, ?_, g5, g6⟩
    cases body with
    | nil =>
      intro l hl
      rw [List.mem_singleton.mp hl]
      exact ⟨⟨by decide, by decide⟩, by decide⟩
    | cons x b' => exact g4

theorem docOk_norm {d : List Block} (hd : docOk d) : docOk (normBlocks d) := by
  intro b hb
  rw [normBlocks] at hb
  obtain ⟨a, ha, rfl⟩ := List.mem_map.mp hb
  exact blockOk_norm a (hd a ha)

theorem mk_data_id : (fun s : String => String.mk s.data) = id :=
  funext fun _ => rfl

theorem split_save (d : List Block) (pend : List String) (hd : docOk d)
    (hg : ∀ l ∈ pend, goodLine l) :
    splitRNStr (saveContent (cellsAux pend d)) = pend ++ docLines (normBlocks d) ++ [""] := by
  rw [splitRNStr, split_save_data d pend hd hg, List.map_append, List.map_map]
  rw [show String.mk ∘ String.data = fun s : String => String.mk s.data from rfl]
  rw [mk_data_id, List.map_id]
  rfl

theorem parse_render (d : List Block) (hd : docOk d) :
    parseCells (renderLines d) = cellsAux [] d := by
  rw [renderLines, parseCells_eq_ntAcc, ntAcc_doc d [] hd]

/-- Claim C4 is false on the code: for the well-formed document
`---`, `t`, `---`, then an r block — front matter followed by a code
block — save appends a blank line after the yaml cell
(`content += text + '\n\n'`), so re-parsing the serialization inserts an
extra empty markdown cell that the original parse does not have:
parse(serialize(parse(text))) differs from parse(text). -/
theorem c4_counterexample :
    openNotebookCells (saveContent (openNotebookCells "---\nt\n---\n```\x7br\x7d\n1+1\n```\n"))
      ≠ openNotebookCells "---\nt\n---\n```\x7br\x7d\n1+1\n```\n" := by
  decide

/-- Claim C4 amended: the round trip holds for well-formed documents
without YAML front matter.  For any text that splits into the rendered
lines of a well-formed block sequence — markdown lines that do not begin
with `---` or the target-language fence opener, and matched
target-language fenced blocks, ending in a newline —
parse(serialize(parse(text))) = parse(text): the accumulated (possibly
empty) markdown span is flushed before each code block and the remaining
markdown lines are flushed as a final cell at end of input, and the only
non-identity of serialization is that an empty code-block body reads back
as one empty line.  With front matter present the round trip fails
(`c4_counterexample`): save's blank line after the yaml cell changes the
following markdown cell. -/
theorem c4_roundtrip (text : String) (d : List Block) (hd : docOk d)
    (ht : splitRNStr text = renderLines d) :
    openNotebookCells (saveContent (openNotebookCells text)) = openNotebookCells text := by
  have h1 : openNotebookCells text = cellsAux [] d := by
    rw [openNotebookCells, ht, parse_render d hd]
  have h2 : openNotebookCells (saveContent (cellsAux [] d)) = cellsAux [] d := by
    rw [openNotebookCells, split_save d [] hd (by intro l hl; cases hl)]
    rw [show ([] : List String) ++ docLines (normBlocks d) ++ [""]
        = renderLines (normBlocks d) from by simp [renderLines]]
    rw [parse_render (normBlocks d) (docOk_norm hd), cellsAux_norm d []]
  rw [h1, h2]

theorem c4_witness :
    docOk [Block.mdLine "a", Block.rblock "```\x7br\x7d" ["1+1"] "```"]
    ∧ splitRNStr "a\n```\x7br\x7d\n1+1\n```\n"
        = renderLines [Block.mdLine "a", Block.rblock "```\x7br\x7d" ["1+1"] "```"]
    ∧ openNotebookCells (saveContent (openNotebookCells "a\n```\x7br\x7d\n1+1\n```\n"))
        = openNotebookCells "a\n```\x7br\x7d\n1+1\n```\n" :=
  ⟨by decide, by decide,
   c4_roundtrip "a\n```\x7br\x7d\n1+1\n```\n"
     [Block.mdLine "a", Block.rblock "```\x7br\x7d" ["1+1"] "```"]
     (by decide) (by decide)⟩
